import Mathlib

set_option linter.unusedVariables false

/-!
A shallow embedding, in Lean 4, of the document-to-Markdown conversion engine
of the `gdoc2md` repository (file `converter.go`, plus the conversion phase of
the export orchestrator in the same repository).  Pure Go functions become Lean
functions; the mutable `converter` receiver becomes explicit state passing of a
`Converter` value; Go loops become structural recursion / folds; Go `nil`
pointers become `Option`.  The Go `map[int64]int` of per-level list counters is
modelled as a total function `Nat → Nat` with default `0`, which is
observationally identical to the Go map (a missing key reads as `0`; deletion
is modelled as setting the entry back to `0`).

The first half of the file translates the source; definitions whose doc
comment says "Spec:" are instead written from the specification's words, to be
compared with the source-derived definitions.  The second half states and
proves the properties.
-/

/-! ## String primitives (embedding of the Go `strings` helpers used) -/

/-- The ASCII/Latin-1 part of Go's `unicode.IsSpace` (`'\t'`, `'\n'`, `'\v'`,
`'\f'`, `'\r'`, `' '`, NEL, NBSP), which is what `strings.TrimSpace` trims. -/
def goIsSpace (ch : Char) : Bool :=
  ch = ' ' || ch = '\t' || ch = '\n' || ch = (Char.ofNat 11) || ch = (Char.ofNat 12) ||
    ch = '\r' || ch = (Char.ofNat 133) || ch = (Char.ofNat 160)

/-- Go `strings.TrimSpace`. -/
def trimSpace (s : String) : String :=
  ⟨((s.data.dropWhile goIsSpace).reverse.dropWhile goIsSpace).reverse⟩

/-- Go `strings.TrimRight(s, "\n")`: drop every trailing newline. -/
def trimRightNewlines (s : String) : String :=
  ⟨(s.data.reverse.dropWhile (· = '\n')).reverse⟩

/-- Go `strings.HasSuffix(s, "\n")`. -/
def endsWithNewline (s : String) : Bool :=
  s.data.getLast? = some '\n'

/-- Go `strings.Repeat(s, n)`. -/
def strRepeat (s : String) (n : Nat) : String :=
  ⟨(List.replicate n s.data).flatten⟩

/-- Go `strings.ReplaceAll(s, old, new)` for a one-character `old` pattern
(the only shape the source uses): every occurrence of the character is
replaced, character by character. -/
def replaceAllChar (s : String) (old : Char) (new : String) : String :=
  ⟨s.data.flatMap (fun ch => if ch = old then new.data else [ch])⟩

/-- Go `strings.ToLower` (ASCII case folding; every font-family constant the
source compares against is ASCII). -/
def toLowerStr (s : String) : String :=
  ⟨s.data.map Char.toLower⟩

/-- Does `l` start with `pat`? (helper for the substring test). -/
def startsWithL : List Char → List Char → Bool
  | _, [] => true
  | [], _ :: _ => false
  | c :: cs, p :: ps => c = p && startsWithL cs ps

/-- Does `l` contain `pat` as a contiguous run? (helper for `strContainsSub`). -/
def hasSubstrL : List Char → List Char → Bool
  | [], pat => pat.isEmpty
  | c :: cs, pat => startsWithL (c :: cs) pat || hasSubstrL cs pat

/-- Go `strings.Contains(s, pat)`. -/
def strContainsSub (s pat : String) : Bool :=
  hasSubstrL s.data pat.data

/-- Go `strings.Join(elems, sep)`. -/
def goJoin (elems : List String) (sep : String) : String :=
  match elems with
  | [] => ""
  | e :: rest => rest.foldl (fun acc x => acc ++ sep ++ x) e

/-- The decimal digit character of `d < 10` (Go `fmt` verb `%d`, one digit). -/
def digitChar (d : Nat) : Char := Char.ofNat (48 + d)

/-- The decimal digits of `n`, most significant first, prepended to `acc`;
`fuel` bounds the recursion depth (any `fuel > n` is enough). -/
def natDigitsCore : Nat → Nat → List Char → List Char
  | 0, _, acc => acc
  | fuel + 1, n, acc =>
    if n < 10 then digitChar n :: acc
    else natDigitsCore fuel (n / 10) (digitChar (n % 10) :: acc)

/-- The decimal digits of `n`, most significant first: the embedding of Go's
`fmt` verb `%d` on a non-negative integer. -/
def natDigits (n : Nat) : List Char := natDigitsCore (n + 1) n []

/-- The recursive characterisation of the decimal digits, used in proofs. -/
def natDigitsR (n : Nat) : List Char :=
  if n < 10 then [digitChar n]
  else natDigitsR (n / 10) ++ [digitChar (n % 10)]
decreasing_by exact Nat.div_lt_self (by omega) (by omega)

/-- Decimal rendering of a natural number (Go `fmt` verb `%d`). -/
def natStr (n : Nat) : String := ⟨natDigits n⟩

/-- The digits of `n` left-padded with `'0'` to width 3 (Go verb `%03d`). -/
def pad3Chars (n : Nat) : List Char :=
  List.replicate (3 - (natDigits n).length) '0' ++ natDigits n

/-- Go `fmt.Sprintf("%03d", n)`. -/
def pad3 (n : Nat) : String := ⟨pad3Chars n⟩

/-! ## Data model (the slice of the `docs/v1` API types the source reads) -/

/-- `docsv1.WeightedFontFamily` (the one field the source reads). -/
structure WeightedFontFamily where
  fontFamily : String
deriving DecidableEq

/-- `docsv1.Link` (the one field the source reads). -/
structure Link where
  url : String
deriving DecidableEq

/-- `docsv1.TextStyle` (the fields the source reads; a `nil` pointer field is
`none`). -/
structure TextStyle where
  bold : Bool
  italic : Bool
  strikethrough : Bool
  weightedFontFamily : Option WeightedFontFamily
  link : Option Link
deriving DecidableEq

/-- `docsv1.TextRun`: raw content plus an optional style. -/
structure TextRun where
  content : String
  textStyle : Option TextStyle
deriving DecidableEq

/-- `docsv1.InlineObjectElement` (the one field the source reads). -/
structure InlineObjectElement where
  inlineObjectId : String
deriving DecidableEq

/-- `docsv1.ParagraphElement`: the three variants the source renders, plus a
catch-all for the element kinds its `switch` ignores. -/
inductive ParagraphElement where
  | textRun (tr : TextRun)
  | inlineObjectElement (e : InlineObjectElement)
  | horizontalRule
  | other
deriving DecidableEq

/-- `docsv1.Bullet`.  The nesting level is `int64` in the API but is always
non-negative (the spec's data model: "nesting level integer ≥ 0"), so it is
embedded as `Nat`. -/
structure Bullet where
  nestingLevel : Nat
  listId : String
deriving DecidableEq

/-- `docsv1.ParagraphStyle` (the one field the source reads). -/
structure ParagraphStyle where
  namedStyleType : String
deriving DecidableEq

/-- `docsv1.Paragraph` (the fields the source reads). -/
structure Paragraph where
  paragraphStyle : Option ParagraphStyle
  bullet : Option Bullet
  elements : List ParagraphElement
deriving DecidableEq

/-- `docsv1.NestingLevel` (the one field the source reads). -/
structure NestingLevelProps where
  glyphType : String
deriving DecidableEq

/-- `docsv1.ListProperties`. -/
structure ListProps where
  nestingLevels : List NestingLevelProps
deriving DecidableEq

/-- `docsv1.List` (a list definition, keyed by list id in the tab). -/
structure ListDef where
  listProperties : Option ListProps
deriving DecidableEq

/-- `docsv1.ImageProperties` (the one field the source reads). -/
structure ImageProperties where
  contentUri : String
deriving DecidableEq

/-- `docsv1.EmbeddedObject` (the fields the source reads). -/
structure EmbeddedObject where
  title : String
  description : String
  imageProperties : Option ImageProperties
deriving DecidableEq

/-- `docsv1.InlineObjectProperties`. -/
structure InlineObjectProperties where
  embeddedObject : Option EmbeddedObject
deriving DecidableEq

/-- `docsv1.InlineObject`. -/
structure InlineObject where
  inlineObjectProperties : Option InlineObjectProperties
deriving DecidableEq

/-- `docsv1.TabProperties` (the one field the source reads). -/
structure TabProperties where
  title : String
deriving DecidableEq

/-- `docsv1.StructuralElement`: paragraph, table (rows of cells of structural
elements), section break, or table of contents.  A Go table is
`TableRows []*TableRow`, `TableRow.TableCells []*TableCell`,
`TableCell.Content []*StructuralElement`, hence the triply nested list. -/
inductive StructuralElement where
  | paragraph (p : Paragraph)
  | table (rows : List (List (List StructuralElement)))
  | sectionBreak
  | tableOfContents

/-- `docsv1.Body` (the one field the source reads). -/
structure Body where
  content : List StructuralElement

/-- A Go `map[string]α` as the source observes it: an association list with
first-match lookup (`v, ok := m[k]`). -/
def lookupAssoc {α : Type} (m : List (String × α)) (k : String) : Option α :=
  (m.find? (fun p => p.1 = k)).map (fun p => p.2)

/-- `docsv1.DocumentTab` (the fields the source reads; the Go maps become
association lists, a `nil` map becomes `none`). -/
structure DocumentTab where
  body : Option Body
  lists : Option (List (String × ListDef))
  inlineObjects : Option (List (String × InlineObject))

/-- `docsv1.Tab`: an optional document tab, optional tab properties, and the
child tabs (recursive). -/
inductive Tab where
  | mk (documentTab : Option DocumentTab) (tabProperties : Option TabProperties)
      (childTabs : List Tab)

/-- Field accessor for `Tab.documentTab`. -/
def Tab.documentTab : Tab → Option DocumentTab
  | .mk d _ _ => d

/-- Field accessor for `Tab.tabProperties`. -/
def Tab.tabProperties : Tab → Option TabProperties
  | .mk _ p _ => p

/-- Field accessor for `Tab.childTabs`. -/
def Tab.childTabs : Tab → List Tab
  | .mk _ _ c => c

/-! ## Converter state (`converter.go`) -/

/-- `ImageRef` of `converter.go`. -/
structure ImageRef where
  objectID : String
  contentURI : String
  filename : String
deriving DecidableEq

/-- `ConvertResult` of `converter.go`. -/
structure ConvertResult where
  markdown : String
  images : List ImageRef

/-- `listTracker` of `converter.go`.  `itemCounts` is `map[int64]int` in Go;
here a total function with default `0` (missing key and deleted key both read
as `0`, exactly as the Go map does). -/
structure ListTracker where
  listID : String
  nestingLevel : Nat
  itemCounts : Nat → Nat

/-- The Go zero value `listTracker{}` (a `nil` map reads every key as `0`). -/
def emptyTracker : ListTracker :=
  { listID := "", nestingLevel := 0, itemCounts := fun _ => 0 }

/-- `converter` of `converter.go`: the per-tab conversion state. -/
structure Converter where
  tab : Tab
  tabIndex : Nat
  buf : String
  images : List ImageRef
  imageCount : Nat
  listState : ListTracker

/-! ## The conversion functions (`converter.go`) -/

/-- `writeHeading` of `converter.go`. -/
def writeHeading (c : Converter) (text : String) (level : Nat) : Converter :=
  { c with buf := c.buf ++ strRepeat "#" level ++ " " ++ trimSpace text ++ "\n\n" }

/-- `headingLevelFromStyle` of `converter.go`. -/
def headingLevelFromStyle (style : String) : Nat :=
  match style with
  | "HEADING_1" => 1
  | "HEADING_2" => 2
  | "HEADING_3" => 3
  | "HEADING_4" => 4
  | "HEADING_5" => 5
  | "HEADING_6" => 6
  | "TITLE" => 1
  | "SUBTITLE" => 2
  | _ => 0

/-- `isOrderedGlyph` of `converter.go`. -/
def isOrderedGlyph (glyphType : String) : Bool :=
  match glyphType with
  | "DECIMAL" => true
  | "ALPHA" => true
  | "UPPER_ALPHA" => true
  | "ROMAN" => true
  | "UPPER_ROMAN" => true
  | "ZERO_DECIMAL" => true
  | _ => false

/-- `isMonospace` of `converter.go`. -/
def isMonospace (style : TextStyle) : Bool :=
  match style.weightedFontFamily with
  | none => false
  | some wff =>
    let family := toLowerStr wff.fontFamily
    if family = "courier new" || family = "consolas" || family = "roboto mono" ||
        family = "source code pro" || family = "fira code" || family = "jetbrains mono" ||
        family = "ubuntu mono" || family = "ibm plex mono" || family = "dejavu sans mono" ||
        family = "menlo" || family = "monaco" || family = "andale mono" then
      true
    else
      strContainsSub family "mono" || strContainsSub family "courier"

/-- `guessImageExtension` of `converter.go`. -/
def guessImageExtension (uri : String) : String :=
  let lower := toLowerStr uri
  if strContainsSub lower ".png" then ".png"
  else if strContainsSub lower ".gif" then ".gif"
  else if strContainsSub lower ".svg" then ".svg"
  else if strContainsSub lower ".webp" then ".webp"
  else ".jpg"

/-- `renderTextRun` of `converter.go` (a pure function of the run). -/
def renderTextRun (tr : TextRun) : String :=
  let text := tr.content
  if text = "\n" then text
  else
    match tr.textStyle with
    | none => text
    | some style =>
      if isMonospace style && decide (trimSpace text ≠ "") then
        "`" ++ trimSpace text ++ "`"
      else
        let trailingNewline := endsWithNewline text
        let text := trimRightNewlines text
        if text = "" then
          if trailingNewline then "\n" else ""
        else
          let text :=
            if style.bold && style.italic then "***" ++ text ++ "***"
            else if style.bold then "**" ++ text ++ "**"
            else if style.italic then "*" ++ text ++ "*"
            else text
          let text := if style.strikethrough then "~~" ++ text ++ "~~" else text
          let text :=
            match style.link with
            | some l => if l.url ≠ "" then "[" ++ text ++ "](" ++ l.url ++ ")" else text
            | none => text
          if trailingNewline then text ++ "\n" else text

/-- The filename `fmt.Sprintf("tab%d_image_%03d%s", tabIndex, count, ext)`
built in `renderInlineObject`. -/
def imageFilename (tabIndex : Nat) (count : Nat) (ext : String) : String :=
  "tab" ++ natStr tabIndex ++ "_image_" ++ pad3 count ++ ext

/-- `renderInlineObject` of `converter.go`: returns the rendered string and
the updated converter (the Go method mutates `c.imageCount` and `c.images`).
Every early `return ""` of the source is a `("", c)` here. -/
def renderInlineObject (c : Converter) (elem : InlineObjectElement) : String × Converter :=
  match c.tab.documentTab with
  | none => ("", c)
  | some dt =>
    match dt.inlineObjects with
    | none => ("", c)
    | some objs =>
      match lookupAssoc objs elem.inlineObjectId with
      | none => ("", c)
      | some obj =>
        match obj.inlineObjectProperties with
        | none => ("", c)
        | some props =>
          match props.embeddedObject with
          | none => ("", c)
          | some embedded =>
            match embedded.imageProperties with
            | none => ("", c)
            | some ip =>
              if ip.contentUri = "" then ("", c)
              else
                let newCount := c.imageCount + 1
                let ext := guessImageExtension ip.contentUri
                let filename := imageFilename c.tabIndex newCount ext
                let alt := embedded.title
                let alt := if alt = "" then embedded.description else alt
                let alt := if alt = "" then filename else alt
                ("![" ++ alt ++ "](images/" ++ filename ++ ")",
                  { c with
                    imageCount := newCount,
                    images := c.images ++
                      [{ objectID := elem.inlineObjectId,
                         contentURI := ip.contentUri,
                         filename := filename }] })

/-- `renderParagraphElements` of `converter.go`: the loop body appends each
element's rendering to the string builder; the converter state is threaded
because `renderInlineObject` updates it. -/
def renderParagraphElements (c : Converter) : List ParagraphElement → String × Converter
  | [] => ("", c)
  | elem :: rest =>
    match elem with
    | .textRun tr =>
      let r := renderParagraphElements c rest
      (renderTextRun tr ++ r.1, r.2)
    | .inlineObjectElement e =>
      let r0 := renderInlineObject c e
      let r := renderParagraphElements r0.2 rest
      (r0.1 ++ r.1, r.2)
    | .horizontalRule =>
      let r := renderParagraphElements c rest
      ("\n---\n" ++ r.1, r.2)
    | .other => renderParagraphElements c rest

/-- The `ordered` determination at the top of `handleListItem`: look the list
id up in the tab's list map and test the glyph type at the item's nesting
level; any failure along the chain leaves `ordered = false`. -/
def listOrdered (tab : Tab) (listId : String) (nestingLevel : Nat) : Bool :=
  if listId ≠ "" then
    match tab.documentTab with
    | none => false
    | some dt =>
      match dt.lists with
      | none => false
      | some lists =>
        match lookupAssoc lists listId with
        | none => false
        | some list =>
          match list.listProperties with
          | none => false
          | some lp =>
            if h : nestingLevel < lp.nestingLevels.length then
              isOrderedGlyph (lp.nestingLevels.get ⟨nestingLevel, h⟩).glyphType
            else false
  else false

/-- The list-state update of `handleListItem`: reset on a different list id,
discard strictly deeper counters when the nesting level decreases, set the
tracked level, and increment the counter at that level. -/
def listStateStep (st : ListTracker) (listId : String) (nestingLevel : Nat) : ListTracker :=
  let st := if st.listID ≠ listId then
      { listID := listId, nestingLevel := 0, itemCounts := fun _ => 0 }
    else st
  let counts := if nestingLevel < st.nestingLevel then
      (fun k => if k > nestingLevel then 0 else st.itemCounts k)
    else st.itemCounts
  { listID := st.listID, nestingLevel := nestingLevel,
    itemCounts := fun k => if k = nestingLevel then counts nestingLevel + 1 else counts k }

/-- `handleListItem` of `converter.go`.  The Go method dereferences
`p.Bullet`, and is only called when the bullet is present; a missing bullet
leaves the state unchanged here.  The `headingLevel` parameter is taken (as in
the source) and unused (as in the source). -/
def handleListItem (c : Converter) (p : Paragraph) (headingLevel : Nat) : Converter :=
  match p.bullet with
  | none => c
  | some bullet =>
    let nestingLevel := bullet.nestingLevel
    let listID := bullet.listId
    let ordered := listOrdered c.tab listID nestingLevel
    let st := listStateStep c.listState listID nestingLevel
    let c1 : Converter := { c with listState := st }
    let r := renderParagraphElements c1 p.elements
    let c2 := r.2
    let indent := strRepeat "  " nestingLevel
    let text := trimSpace r.1
    if ordered then
      { c2 with buf := c2.buf ++ indent ++
          natStr (c2.listState.itemCounts nestingLevel) ++ ". " ++ text ++ "\n" }
    else
      { c2 with buf := c2.buf ++ indent ++ "- " ++ text ++ "\n" }

/-- The named style of a paragraph (`p.ParagraphStyle.NamedStyleType`, with a
`nil` style reading as `""`), as computed at the top of `convertParagraph`. -/
def paraNamedStyle (p : Paragraph) : String :=
  match p.paragraphStyle with
  | some st => st.namedStyleType
  | none => ""

/-- `convertParagraph` of `converter.go`. -/
def convertParagraph (c : Converter) (p : Paragraph) : Converter :=
  let headingLevel := headingLevelFromStyle (paraNamedStyle p)
  match p.bullet with
  | some _ => handleListItem c p headingLevel
  | none =>
    let c : Converter := { c with listState := emptyTracker }
    let r := renderParagraphElements c p.elements
    let text := r.1
    let c := r.2
    if trimSpace text = "" then { c with buf := c.buf ++ "\n" }
    else if headingLevel > 0 then writeHeading c text headingLevel
    else { c with buf := c.buf ++ trimRightNewlines text ++ "\n\n" }

/-- The cell-text computation of `convertTable`: concatenate the trimmed
rendering of each paragraph of the cell (non-paragraph cell content is
skipped by the source's `if elem.Paragraph != nil`). -/
def renderCellParas (c : Converter) : List StructuralElement → String × Converter
  | [] => ("", c)
  | .paragraph p :: rest =>
    let r := renderParagraphElements c p.elements
    let r2 := renderCellParas r.2 rest
    (trimSpace r.1 ++ r2.1, r2.2)
  | _ :: rest => renderCellParas c rest

/-- One cell of `convertTable`: the concatenated trimmed paragraph text with
pipes escaped and newlines collapsed to spaces. -/
def renderCellText (c : Converter) (content : List StructuralElement) : String × Converter :=
  let r := renderCellParas c content
  (replaceAllChar (replaceAllChar r.1 '|' "\\|") '\n' " ", r.2)

/-- One row of `convertTable`'s first loop: the list of cell texts. -/
def renderRowCells (c : Converter) : List (List StructuralElement) →
    List String × Converter
  | [] => ([], c)
  | cell :: rest =>
    let r := renderCellText c cell
    let r2 := renderRowCells r.2 rest
    (r.1 :: r2.1, r2.2)

/-- The first loop of `convertTable`: the matrix of cell texts. -/
def renderTableRows (c : Converter) :
    List (List (List StructuralElement)) → List (List String) × Converter
  | [] => ([], c)
  | row :: rest =>
    let r := renderRowCells c row
    let r2 := renderTableRows r.2 rest
    (r.1 :: r2.1, r2.2)

/-- The data-row loop of `convertTable`: each row is right-padded with empty
cells while shorter than the header (`for len(row) < len(rows[0])`), then
emitted as a pipe line. -/
def emitTableLines (c : Converter) (hdrLen : Nat) : List (List String) → Converter
  | [] => c
  | row :: rest =>
    let row := row ++ List.replicate (hdrLen - row.length) ""
    emitTableLines
      { c with buf := c.buf ++ "| " ++ goJoin row " | " ++ " |\n" } hdrLen rest

/-- `convertTable` of `converter.go`. -/
def convertTable (c : Converter) (trows : List (List (List StructuralElement))) :
    Converter :=
  match trows with
  | [] => c
  | _ :: _ =>
    let r := renderTableRows c trows
    match r.1 with
    | [] => r.2
    | hdr :: rest =>
      let c := r.2
      let c : Converter := { c with buf := c.buf ++ "| " ++ goJoin hdr " | " ++ " |\n" }
      let sep := List.replicate hdr.length "---"
      let c : Converter := { c with buf := c.buf ++ "| " ++ goJoin sep " | " ++ " |\n" }
      let c := emitTableLines c hdr.length rest
      { c with buf := c.buf ++ "\n" }

/-- `convertStructuralElement` of `converter.go` (section breaks and tables of
contents are ignored). -/
def convertStructuralElement (c : Converter) (elem : StructuralElement) : Converter :=
  match elem with
  | .paragraph p => convertParagraph c p
  | .table rows => convertTable c rows
  | .sectionBreak => c
  | .tableOfContents => c

/-- The loop of `convertBody` over the body's structural elements. -/
def convertElements (c : Converter) : List StructuralElement → Converter
  | [] => c
  | elem :: rest => convertElements (convertStructuralElement c elem) rest

/-- `convertBody` of `converter.go` (a `nil` body converts nothing). -/
def convertBody (c : Converter) (body : Option Body) : Converter :=
  match body with
  | none => c
  | some b => convertElements c b.content

/-- `ConvertTab` of `converter.go`: convert a single tab; `tabIndex` is used
to create globally unique image filenames across tabs. -/
def ConvertTab (tab : Tab) (tabTitle : String) (tabIndex : Nat) : ConvertResult :=
  let c : Converter :=
    { tab := tab, tabIndex := tabIndex, buf := "", images := [],
      imageCount := 0, listState := emptyTracker }
  let c := writeHeading c tabTitle 1
  let c :=
    match tab.documentTab with
    | some dt => convertBody c dt.body
    | none => c
  { markdown := c.buf, images := c.images }

/-! ## The export orchestrator's pure conversion phase (`exporter` part) -/

/-- `flattenTabs` of the exporter: append each tab, then the flattening of its
child tabs, before the next sibling. -/
def flattenTabs : List Tab → List Tab
  | [] => []
  | .mk dt tp children :: rest =>
    .mk dt tp children :: (flattenTabs children ++ flattenTabs rest)

/-- `tabTitle` of the exporter. -/
def tabTitle (tab : Tab) : String :=
  match tab.tabProperties with
  | some props => if props.title ≠ "" then props.title else "Untitled"
  | none => "Untitled"

/-- `sanitizeFilename` of the exporter: the `strings.NewReplacer` maps each of
the nine filesystem-hostile characters; then trim; an empty result becomes
"untitled". -/
def sanitizeFilename (name : String) : String :=
  let replaced : String := ⟨name.data.flatMap (fun ch =>
    match ch with
    | '/' => ['-']
    | '\\' => ['-']
    | ':' => ['-']
    | '*' => []
    | '?' => []
    | '"' => []
    | '<' => []
    | '>' => []
    | '|' => []
    | _ => [ch])⟩
  let name := trimSpace replaced
  if name = "" then "untitled" else name

/-- `tabResult` of the exporter. -/
structure TabResult where
  title : String
  filename : String
  result : ConvertResult

/-- The conversion phase of `ExportDoc`, with the I/O dropped: flatten the tab
tree, fail with "document has no tabs" when the flattening is empty, otherwise
convert every flattened tab at its position index (the Go code runs the
conversions in parallel, each goroutine writing `results[i]` from `(i, tab)`;
the resulting slice is exactly this map over the indexed flattened tabs). -/
def exportConvert (docTabs : List Tab) : Except String (List TabResult) :=
  let tabs := flattenTabs docTabs
  if tabs.length = 0 then Except.error "document has no tabs"
  else Except.ok (tabs.enum.map (fun p =>
    { title := tabTitle p.2,
      filename := sanitizeFilename (tabTitle p.2) ++ ".md",
      result := ConvertTab p.2 (tabTitle p.2) p.1 }))

/-- All image filenames an export produces, in order: tab by tab (in flattened
order), image by image. -/
def exportImageFilenames (docTabs : List Tab) : List String :=
  ((flattenTabs docTabs).enum.map (fun p =>
    (ConvertTab p.2 (tabTitle p.2) p.1).images.map ImageRef.filename)).flatten

/-! ## Decimal rendering: roundtrip and digit facts -/

/-- The value a digit string denotes (most significant first); leading zeros
are immaterial.  Used to invert `natDigits`/`pad3Chars`. -/
def digitsVal (l : List Char) : Nat :=
  l.foldl (fun a ch => 10 * a + (ch.toNat - 48)) 0

theorem digitsVal_append_one (xs : List Char) (c : Char) :
    digitsVal (xs ++ [c]) = 10 * digitsVal xs + (c.toNat - 48) := by
  simp [digitsVal, List.foldl_append]

theorem digitChar_toNat (d : Nat) (h : d < 10) : (digitChar d).toNat = 48 + d := by
  interval_cases d <;> decide

theorem digitChar_isDigit (d : Nat) (h : d < 10) : (digitChar d).isDigit = true := by
  interval_cases d <;> decide

theorem natDigitsCore_eq_r :
    ∀ (n : Nat), ∀ (fuel : Nat) (acc : List Char), n < fuel →
    natDigitsCore fuel n acc = natDigitsR n ++ acc := by
  intro n
  induction n using Nat.strong_induction_on with
  | _ n ih =>
    intro fuel acc hfuel
    match fuel with
    | 0 => omega
    | f + 1 =>
      rw [natDigitsCore, natDigitsR]
      by_cases h : n < 10
      · simp [h]
      · simp only [h, if_false, ite_false]
        have hdiv : n / 10 < n := Nat.div_lt_self (by omega) (by omega)
        rw [ih (n / 10) hdiv f _ (by omega)]
        simp

theorem natDigits_eq_r (n : Nat) : natDigits n = natDigitsR n := by
  rw [natDigits, natDigitsCore_eq_r n (n + 1) [] (by omega)]
  simp

theorem digitsVal_natDigitsR (n : Nat) : digitsVal (natDigitsR n) = n := by
  induction n using Nat.strong_induction_on with
  | _ n ih =>
    rw [natDigitsR]
    split
    · rename_i h
      simp [digitsVal, digitChar_toNat n h]
    · rename_i h
      rw [digitsVal_append_one, ih (n / 10) (Nat.div_lt_self (by omega) (by omega)),
        digitChar_toNat (n % 10) (Nat.mod_lt n (by omega))]
      omega

theorem digitsVal_natDigits (n : Nat) : digitsVal (natDigits n) = n := by
  rw [natDigits_eq_r]
  exact digitsVal_natDigitsR n

theorem natDigitsR_all_digits (n : Nat) : ∀ ch ∈ natDigitsR n, ch.isDigit = true := by
  induction n using Nat.strong_induction_on with
  | _ n ih =>
    rw [natDigitsR]
    split
    · rename_i h
      intro ch hch
      simp only [List.mem_singleton] at hch
      subst hch
      exact digitChar_isDigit n h
    · rename_i h
      intro ch hch
      rcases List.mem_append.1 hch with h1 | h1
      · exact ih (n / 10) (Nat.div_lt_self (by omega) (by omega)) ch h1
      · simp only [List.mem_singleton] at h1
        subst h1
        exact digitChar_isDigit (n % 10) (Nat.mod_lt n (by omega))

theorem natDigits_all_digits (n : Nat) : ∀ ch ∈ natDigits n, ch.isDigit = true := by
  rw [natDigits_eq_r]
  exact natDigitsR_all_digits n

theorem digitsVal_replicate_zero (k : Nat) :
    digitsVal (List.replicate k '0') = 0 := by
  induction k with
  | zero => rfl
  | succ k ih =>
    have : List.replicate (k + 1) '0' = List.replicate k '0' ++ ['0'] := by
      rw [← List.replicate_succ']
    rw [this, digitsVal_append_one, ih]
    decide

theorem digitsVal_pad3Chars (n : Nat) : digitsVal (pad3Chars n) = n := by
  unfold pad3Chars digitsVal
  rw [List.foldl_append]
  have h0 : List.foldl (fun a ch => 10 * a + (ch.toNat - 48)) 0
      (List.replicate (3 - (natDigits n).length) '0') = 0 := digitsVal_replicate_zero _
  rw [h0]
  exact digitsVal_natDigits n

theorem pad3Chars_all_digits (n : Nat) : ∀ ch ∈ pad3Chars n, ch.isDigit = true := by
  intro ch hch
  rcases List.mem_append.1 hch with h1 | h1
  · rcases List.eq_of_mem_replicate h1 with rfl
    decide
  · exact natDigits_all_digits n ch h1

/-! ## Splitting a digit run off a character list -/

theorem takeWhile_append_stop (p : Char → Bool) (xs : List Char) (y : Char)
    (ys : List Char) (hx : ∀ x ∈ xs, p x = true) (hy : p y = false) :
    (xs ++ y :: ys).takeWhile p = xs := by
  induction xs with
  | nil => simp [List.takeWhile_cons, hy]
  | cons a l ih =>
    have ha : p a = true := hx a (by simp)
    simp only [List.cons_append, List.takeWhile_cons, ha, if_true]
    rw [ih (fun x hx2 => hx x (by simp [hx2]))]

theorem dropWhile_append_stop (p : Char → Bool) (xs : List Char) (y : Char)
    (ys : List Char) (hx : ∀ x ∈ xs, p x = true) (hy : p y = false) :
    (xs ++ y :: ys).dropWhile p = y :: ys := by
  induction xs with
  | nil => simp [List.dropWhile_cons, hy]
  | cons a l ih =>
    have ha : p a = true := hx a (by simp)
    simp only [List.cons_append, List.dropWhile_cons, ha, if_true]
    exact ih (fun x hx2 => hx x (by simp [hx2]))

/-! ## Decoding an image filename back to (tab index, counter) -/

/-- The candidate extensions `guessImageExtension` can return. -/
def extCandidates : List String := [".png", ".gif", ".svg", ".webp", ".jpg"]

theorem guessImageExtension_mem (uri : String) :
    guessImageExtension uri ∈ extCandidates := by
  unfold guessImageExtension
  dsimp only
  split
  · simp [extCandidates]
  · split
    · simp [extCandidates]
    · split
      · simp [extCandidates]
      · split
        · simp [extCandidates]
        · simp [extCandidates]

/-- The tab index encoded in an image filename: the digit run after "tab". -/
def fnameIdxOf (s : String) : Nat :=
  digitsVal ((s.data.drop 3).takeWhile Char.isDigit)

/-- The per-tab counter encoded in an image filename: the digit run after
"_image_". -/
def fnameCntOf (s : String) : Nat :=
  digitsVal (((((s.data.drop 3).dropWhile Char.isDigit).drop 7).takeWhile Char.isDigit))

theorem imageFilename_data (i c : Nat) (ext : String) :
    (imageFilename i c ext).data =
      't' :: 'a' :: 'b' ::
        (natDigits i ++ '_' :: 'i' :: 'm' :: 'a' :: 'g' :: 'e' :: '_' ::
          (pad3Chars c ++ ext.data)) := by
  have htab : "tab".data = ['t', 'a', 'b'] := by decide
  have himg : "_image_".data = ['_', 'i', 'm', 'a', 'g', 'e', '_'] := by decide
  simp only [imageFilename, natStr, pad3, String.data_append, htab, himg]
  simp [List.append_assoc]

theorem imageFilename_decode (i c : Nat) (ext : String) (hext : ext ∈ extCandidates) :
    fnameIdxOf (imageFilename i c ext) = i ∧ fnameCntOf (imageFilename i c ext) = c := by
  have hdot : ∃ rest : List Char, ext.data = '.' :: rest := by
    simp only [extCandidates, List.mem_cons, List.mem_singleton] at hext
    rcases hext with rfl | rfl | rfl | rfl | rfl | h
    · exact ⟨['p', 'n', 'g'], by decide⟩
    · exact ⟨['g', 'i', 'f'], by decide⟩
    · exact ⟨['s', 'v', 'g'], by decide⟩
    · exact ⟨['w', 'e', 'b', 'p'], by decide⟩
    · exact ⟨['j', 'p', 'g'], by decide⟩
    · exact absurd h (by simp)
  rcases hdot with ⟨rest, hrest⟩
  have hdata := imageFilename_data i c ext
  have hdrop3 : ((imageFilename i c ext).data.drop 3) =
      natDigits i ++ '_' :: 'i' :: 'm' :: 'a' :: 'g' :: 'e' :: '_' ::
        (pad3Chars c ++ ext.data) := by
    rw [hdata]
    rfl
  have hidx : ((imageFilename i c ext).data.drop 3).takeWhile Char.isDigit = natDigits i := by
    rw [hdrop3]
    exact takeWhile_append_stop _ _ _ _ (natDigits_all_digits i) (by decide)
  have hdw : ((imageFilename i c ext).data.drop 3).dropWhile Char.isDigit =
      '_' :: 'i' :: 'm' :: 'a' :: 'g' :: 'e' :: '_' :: (pad3Chars c ++ ext.data) := by
    rw [hdrop3]
    exact dropWhile_append_stop _ _ _ _ (natDigits_all_digits i) (by decide)
  constructor
  · rw [fnameIdxOf, hidx, digitsVal_natDigits]
  · rw [fnameCntOf, hdw]
    have hdrop7 : List.drop 7
        ('_' :: 'i' :: 'm' :: 'a' :: 'g' :: 'e' :: '_' :: (pad3Chars c ++ ext.data)) =
        pad3Chars c ++ ext.data := rfl
    rw [hdrop7, hrest,
      takeWhile_append_stop _ _ _ _ (pad3Chars_all_digits c) (by decide),
      digitsVal_pad3Chars]

/-! ## Converter-state invariants -/

/-- The per-tab image invariant: the image counter equals the number of
collected images, and the image at position `n` (0-based) carries the
filename built from the converter's tab index and the 1-based counter `n + 1`
with one of the candidate extensions. -/
def ConvInv (c : Converter) : Prop :=
  c.imageCount = c.images.length ∧
  ∀ n (h : n < c.images.length), ∃ ext, ext ∈ extCandidates ∧
    (c.images.get ⟨n, h⟩).filename = imageFilename c.tabIndex (n + 1) ext

/-- One conversion step leaves the tab index unchanged and preserves the
image invariant. -/
def InvStep (c c' : Converter) : Prop :=
  c'.tabIndex = c.tabIndex ∧ (ConvInv c → ConvInv c')

theorem invStep_rfl (c : Converter) : InvStep c c := ⟨rfl, id⟩

theorem invStep_trans {a b c : Converter} (h1 : InvStep a b) (h2 : InvStep b c) :
    InvStep a c :=
  ⟨h2.1.trans h1.1, fun h => h2.2 (h1.2 h)⟩

theorem invStep_of_buf (c : Converter) (s : String) :
    InvStep c { c with buf := s } := ⟨rfl, id⟩

theorem invStep_of_listState (c : Converter) (st : ListTracker) :
    InvStep c { c with listState := st } := ⟨rfl, id⟩

theorem renderInlineObject_frame (c : Converter) (e : InlineObjectElement) :
    (renderInlineObject c e).2.tab = c.tab ∧
    (renderInlineObject c e).2.tabIndex = c.tabIndex ∧
    (renderInlineObject c e).2.buf = c.buf ∧
    (renderInlineObject c e).2.listState = c.listState := by
  unfold renderInlineObject
  repeat' split
  all_goals simp

theorem renderInlineObject_invStep (c : Converter) (e : InlineObjectElement) :
    InvStep c (renderInlineObject c e).2 := by
  unfold renderInlineObject
  repeat' split
  all_goals try exact invStep_rfl c
  rename_i dt hdt objs hobjs obj hobj props hprops embedded hemb ip hip huri
  refine ⟨by simp, fun hinv => ?_⟩
  rcases hinv with ⟨hcount, hshape⟩
  constructor
  · simp [hcount]
  · intro n hn
    simp only [List.length_append, List.length_cons, List.length_nil] at hn
    by_cases hlt : n < c.images.length
    · rcases hshape n hlt with ⟨ext, hmem, hfn⟩
      refine ⟨ext, hmem, ?_⟩
      simp only [List.get_eq_getElem] at hfn ⊢
      rw [List.getElem_append_left hlt]
      exact hfn
    · have hn2 : n = c.images.length := by omega
      refine ⟨guessImageExtension ip.contentUri, guessImageExtension_mem _, ?_⟩
      simp only [List.get_eq_getElem]
      rw [List.getElem_append_right (by omega)]
      simp [hn2, hcount]

theorem renderParagraphElements_frame :
    ∀ (es : List ParagraphElement) (c : Converter),
    (renderParagraphElements c es).2.tab = c.tab ∧
    (renderParagraphElements c es).2.tabIndex = c.tabIndex ∧
    (renderParagraphElements c es).2.buf = c.buf ∧
    (renderParagraphElements c es).2.listState = c.listState
  | [], c => ⟨rfl, rfl, rfl, rfl⟩
  | elem :: rest, c => by
    cases elem with
    | textRun tr =>
      simpa [renderParagraphElements] using renderParagraphElements_frame rest c
    | inlineObjectElement e =>
      have h1 := renderInlineObject_frame c e
      have h2 := renderParagraphElements_frame rest (renderInlineObject c e).2
      simp only [renderParagraphElements]
      exact ⟨h2.1.trans h1.1, h2.2.1.trans h1.2.1, h2.2.2.1.trans h1.2.2.1,
        h2.2.2.2.trans h1.2.2.2⟩
    | horizontalRule =>
      simpa [renderParagraphElements] using renderParagraphElements_frame rest c
    | other =>
      simpa [renderParagraphElements] using renderParagraphElements_frame rest c

theorem renderParagraphElements_invStep :
    ∀ (es : List ParagraphElement) (c : Converter),
    InvStep c (renderParagraphElements c es).2
  | [], c => invStep_rfl c
  | elem :: rest, c => by
    cases elem with
    | textRun tr =>
      simpa [renderParagraphElements] using renderParagraphElements_invStep rest c
    | inlineObjectElement e =>
      have h1 := renderInlineObject_invStep c e
      have h2 := renderParagraphElements_invStep rest (renderInlineObject c e).2
      simpa [renderParagraphElements] using invStep_trans h1 h2
    | horizontalRule =>
      simpa [renderParagraphElements] using renderParagraphElements_invStep rest c
    | other => exact renderParagraphElements_invStep rest c

theorem renderInlineObject_listState_indep (c : Converter) (x : ListTracker)
    (e : InlineObjectElement) :
    renderInlineObject { c with listState := x } e =
      ((renderInlineObject c e).1, { (renderInlineObject c e).2 with listState := x }) := by
  obtain ⟨tab, idx, buf, imgs, cnt, ls⟩ := c
  unfold renderInlineObject
  dsimp only
  repeat' split
  all_goals rfl

theorem renderParagraphElements_listState_indep :
    ∀ (es : List ParagraphElement) (c : Converter) (x : ListTracker),
    renderParagraphElements { c with listState := x } es =
      ((renderParagraphElements c es).1,
        { (renderParagraphElements c es).2 with listState := x })
  | [], c, x => rfl
  | elem :: rest, c, x => by
    cases elem with
    | textRun tr =>
      simp only [renderParagraphElements]
      rw [renderParagraphElements_listState_indep rest c x]
    | inlineObjectElement e =>
      simp only [renderParagraphElements]
      rw [renderInlineObject_listState_indep c x e]
      dsimp only
      rw [renderParagraphElements_listState_indep rest (renderInlineObject c e).2 x]
    | horizontalRule =>
      simp only [renderParagraphElements]
      rw [renderParagraphElements_listState_indep rest c x]
    | other =>
      simp only [renderParagraphElements]
      rw [renderParagraphElements_listState_indep rest c x]

theorem writeHeading_invStep (c : Converter) (text : String) (level : Nat) :
    InvStep c (writeHeading c text level) :=
  invStep_of_buf c _

theorem handleListItem_invStep (c : Converter) (p : Paragraph) (hl : Nat) :
    InvStep c (handleListItem c p hl) := by
  unfold handleListItem
  split
  · exact invStep_rfl c
  · dsimp only
    split
    · exact invStep_trans (invStep_of_listState c _)
        (invStep_trans (renderParagraphElements_invStep _ _) (invStep_of_buf _ _))
    · exact invStep_trans (invStep_of_listState c _)
        (invStep_trans (renderParagraphElements_invStep _ _) (invStep_of_buf _ _))

theorem convertParagraph_invStep (c : Converter) (p : Paragraph) :
    InvStep c (convertParagraph c p) := by
  unfold convertParagraph
  split
  · exact handleListItem_invStep c p _
  · dsimp only
    split
    · exact invStep_trans (invStep_of_listState c _)
        (invStep_trans (renderParagraphElements_invStep _ _) (invStep_of_buf _ _))
    · split
      · exact invStep_trans (invStep_of_listState c _)
          (invStep_trans (renderParagraphElements_invStep _ _) (writeHeading_invStep _ _ _))
      · exact invStep_trans (invStep_of_listState c _)
          (invStep_trans (renderParagraphElements_invStep _ _) (invStep_of_buf _ _))

theorem renderCellParas_invStep :
    ∀ (content : List StructuralElement) (c : Converter),
    InvStep c (renderCellParas c content).2
  | [], c => invStep_rfl c
  | .paragraph p :: rest, c => by
    simp only [renderCellParas]
    exact invStep_trans (renderParagraphElements_invStep p.elements c)
      (renderCellParas_invStep rest _)
  | .table t :: rest, c => renderCellParas_invStep rest c
  | .sectionBreak :: rest, c => renderCellParas_invStep rest c
  | .tableOfContents :: rest, c => renderCellParas_invStep rest c

theorem renderCellText_invStep (c : Converter) (content : List StructuralElement) :
    InvStep c (renderCellText c content).2 :=
  renderCellParas_invStep content c

theorem renderRowCells_invStep :
    ∀ (row : List (List StructuralElement)) (c : Converter),
    InvStep c (renderRowCells c row).2
  | [], c => invStep_rfl c
  | cell :: rest, c => by
    simp only [renderRowCells]
    exact invStep_trans (renderCellText_invStep c cell) (renderRowCells_invStep rest _)

theorem renderTableRows_invStep :
    ∀ (trows : List (List (List StructuralElement))) (c : Converter),
    InvStep c (renderTableRows c trows).2
  | [], c => invStep_rfl c
  | row :: rest, c => by
    simp only [renderTableRows]
    exact invStep_trans (renderRowCells_invStep row c) (renderTableRows_invStep rest _)

theorem emitTableLines_invStep :
    ∀ (rows : List (List String)) (c : Converter) (n : Nat),
    InvStep c (emitTableLines c n rows)
  | [], c, n => invStep_rfl c
  | row :: rest, c, n => by
    simp only [emitTableLines]
    exact invStep_trans (invStep_of_buf c _) (emitTableLines_invStep rest _ n)

theorem convertTable_invStep (c : Converter)
    (trows : List (List (List StructuralElement))) :
    InvStep c (convertTable c trows) := by
  unfold convertTable
  split
  · exact invStep_rfl c
  · dsimp only
    split
    · exact renderTableRows_invStep _ c
    · exact invStep_trans (renderTableRows_invStep _ c)
        (invStep_trans (invStep_of_buf _ _)
          (invStep_trans (invStep_of_buf _ _)
            (invStep_trans (emitTableLines_invStep _ _ _) (invStep_of_buf _ _))))

theorem convertStructuralElement_invStep (c : Converter) (elem : StructuralElement) :
    InvStep c (convertStructuralElement c elem) := by
  cases elem with
  | paragraph p => exact convertParagraph_invStep c p
  | table rows => exact convertTable_invStep c rows
  | sectionBreak => exact invStep_rfl c
  | tableOfContents => exact invStep_rfl c

theorem convertElements_invStep :
    ∀ (elems : List StructuralElement) (c : Converter),
    InvStep c (convertElements c elems)
  | [], c => invStep_rfl c
  | elem :: rest, c => by
    simp only [convertElements]
    exact invStep_trans (convertStructuralElement_invStep c elem)
      (convertElements_invStep rest _)

theorem convertBody_invStep (c : Converter) (body : Option Body) :
    InvStep c (convertBody c body) := by
  cases body with
  | none => exact invStep_rfl c
  | some b => exact convertElements_invStep b.content c

/-- The images a single tab conversion collects all carry the filename built
from the tab's position index and the image's 1-based position, with a
candidate extension. -/
theorem convertTab_images (tab : Tab) (title : String) (i : Nat) :
    ∀ n (h : n < (ConvertTab tab title i).images.length),
    ∃ ext, ext ∈ extCandidates ∧
      ((ConvertTab tab title i).images.get ⟨n, h⟩).filename =
        imageFilename i (n + 1) ext := by
  have hc0 : ConvInv
      { tab := tab, tabIndex := i, buf := "", images := [],
        imageCount := 0, listState := emptyTracker } :=
    ⟨rfl, fun n h => absurd h (by simp)⟩
  set c0 : Converter :=
    { tab := tab, tabIndex := i, buf := "", images := [],
      imageCount := 0, listState := emptyTracker } with hc0def
  have hstep : InvStep c0
      (match tab.documentTab with
        | some dt => convertBody (writeHeading c0 title 1) dt.body
        | none => writeHeading c0 title 1) := by
    cases tab.documentTab with
    | none => exact writeHeading_invStep c0 title 1
    | some dt =>
      exact invStep_trans (writeHeading_invStep c0 title 1)
        (convertBody_invStep _ dt.body)
  have himgs : (ConvertTab tab title i).images =
      (match tab.documentTab with
        | some dt => convertBody (writeHeading c0 title 1) dt.body
        | none => writeHeading c0 title 1).images := by
    unfold ConvertTab
    cases tab.documentTab <;> rfl
  intro n h
  have hinv := hstep.2 hc0
  have hidx : (match tab.documentTab with
      | some dt => convertBody (writeHeading c0 title 1) dt.body
      | none => writeHeading c0 title 1).tabIndex = i := hstep.1
  have h2 : n < (match tab.documentTab with
      | some dt => convertBody (writeHeading c0 title 1) dt.body
      | none => writeHeading c0 title 1).images.length := h
  rcases hinv.2 n h2 with ⟨ext, hmem, hfn⟩
  rw [hidx] at hfn
  exact ⟨ext, hmem, hfn⟩

theorem convertTab_filenames_nodup (tab : Tab) (title : String) (i : Nat) :
    ((ConvertTab tab title i).images.map ImageRef.filename).Nodup := by
  rw [List.nodup_iff_injective_get]
  intro n m hnm
  have hn : (n : Nat) < (ConvertTab tab title i).images.length := by
    simpa using n.isLt
  have hm : (m : Nat) < (ConvertTab tab title i).images.length := by
    simpa using m.isLt
  rcases convertTab_images tab title i n.1 hn with ⟨ext1, hmem1, hfn1⟩
  rcases convertTab_images tab title i m.1 hm with ⟨ext2, hmem2, hfn2⟩
  have hget1 : ((ConvertTab tab title i).images.map ImageRef.filename).get n =
      imageFilename i (n.1 + 1) ext1 := by
    rw [List.get_map]
    exact hfn1
  have hget2 : ((ConvertTab tab title i).images.map ImageRef.filename).get m =
      imageFilename i (m.1 + 1) ext2 := by
    rw [List.get_map]
    exact hfn2
  rw [hget1, hget2] at hnm
  have hc1 := (imageFilename_decode i (n.1 + 1) ext1 hmem1).2
  have hc2 := (imageFilename_decode i (m.1 + 1) ext2 hmem2).2
  rw [hnm] at hc1
  rw [hc2] at hc1
  exact Fin.ext (by omega)

theorem convertTab_filenames_idx (tab : Tab) (title : String) (i : Nat) :
    ∀ x ∈ (ConvertTab tab title i).images.map ImageRef.filename,
      fnameIdxOf x = i := by
  intro x hx
  rcases List.mem_iff_get.1 hx with ⟨n, hget⟩
  have hn : (n : Nat) < (ConvertTab tab title i).images.length := by
    simpa using n.isLt
  rcases convertTab_images tab title i n.1 hn with ⟨ext, hmem, hfn⟩
  have : x = imageFilename i (n.1 + 1) ext := by
    rw [← hget, List.get_map]
    exact hfn
  rw [this]
  exact (imageFilename_decode i (n.1 + 1) ext hmem).1

theorem enumFrom_fst_lt {α : Type} :
    ∀ (l : List α) (k : Nat),
    (List.enumFrom k l).Pairwise (fun a b => a.1 < b.1)
  | [], k => List.Pairwise.nil
  | x :: xs, k => by
    simp only [List.enumFrom]
    refine List.Pairwise.cons ?_ (enumFrom_fst_lt xs (k + 1))
    intro b hb
    have := List.mem_enumFrom (show (b.1, b.2) ∈ List.enumFrom (k + 1) xs by simpa using hb)
    omega

theorem exportImageFilenames_nodup (docTabs : List Tab) :
    (exportImageFilenames docTabs).Nodup := by
  unfold exportImageFilenames
  rw [List.nodup_flatten]
  constructor
  · intro s hs
    rcases List.mem_map.1 hs with ⟨p, hp, rfl⟩
    exact convertTab_filenames_nodup p.2 (tabTitle p.2) p.1
  · rw [List.pairwise_map]
    have hpw := enumFrom_fst_lt (flattenTabs docTabs) 0
    refine hpw.imp ?_
    intro a b hab x hxa hxb
    have h1 := convertTab_filenames_idx a.2 (tabTitle a.2) a.1 x hxa
    have h2 := convertTab_filenames_idx b.2 (tabTitle b.2) b.1 x hxb
    omega

/-- Every image filename an export produces is determined by the tab's
position index in the flattened tab sequence and the per-tab 1-based image
counter, in the format built by `imageFilename`. -/
def filenamesFromIndexAndCounter (docTabs : List Tab) : Prop :=
  ∀ p ∈ (flattenTabs docTabs).enum,
    ∀ n (h : n < (ConvertTab p.2 (tabTitle p.2) p.1).images.length),
    ∃ ext, ext ∈ extCandidates ∧
      ((ConvertTab p.2 (tabTitle p.2) p.1).images.get ⟨n, h⟩).filename =
        imageFilename p.1 (n + 1) ext

theorem exportConvert_filenames (docTabs : List Tab) (rs : List TabResult)
    (h : exportConvert docTabs = Except.ok rs) :
    (rs.map (fun r => r.result.images.map ImageRef.filename)).flatten =
      exportImageFilenames docTabs := by
  by_cases hlen : (flattenTabs docTabs).length = 0
  · rw [exportConvert] at h
    simp only [hlen, if_true, reduceIte] at h
    exact absurd h (by simp)
  · rw [exportConvert] at h
    simp only [hlen, if_false, ite_false, Except.ok.injEq] at h
    subst h
    unfold exportImageFilenames
    rw [List.map_map]
    rfl

/-- C1: across one export, every `ImageRef` filename is derived from the
tab's position index in the flattened tab sequence and the per-tab 1-based
image counter (format `tab<idx>_image_<pad3 counter><ext>`), and all the
filenames of all tabs are pairwise distinct — in particular in the result
list of the orchestrator's conversion phase. -/
theorem C1_export_image_filenames_unique (docTabs : List Tab) :
    (exportImageFilenames docTabs).Nodup ∧
    filenamesFromIndexAndCounter docTabs ∧
    (∀ rs, exportConvert docTabs = Except.ok rs →
      ((rs.map (fun r => r.result.images.map ImageRef.filename)).flatten).Nodup) :=
  ⟨exportImageFilenames_nodup docTabs,
   fun p _ => convertTab_images p.2 (tabTitle p.2) p.1,
   fun rs h => by
     rw [exportConvert_filenames docTabs rs h]
     exact exportImageFilenames_nodup docTabs⟩

/-! ## Pre-order traversal (spec side) and the tab flattener -/

mutual
/-- Spec: the pre-order depth-first traversal of one tab: the tab itself,
then its children's traversals, in order. -/
def preorderTab : Tab → List Tab
  | .mk dt tp children => .mk dt tp children :: preorderForest children

/-- Spec: the pre-order depth-first traversal of an ordered forest of tabs:
each tab's traversal in sequence, so a tab's children appear immediately
after it and before any subsequent sibling's subtree. -/
def preorderForest : List Tab → List Tab
  | [] => []
  | t :: ts => preorderTab t ++ preorderForest ts
end

theorem flattenTabs_eq_preorderForest :
    ∀ tabs : List Tab, flattenTabs tabs = preorderForest tabs
  | [] => by rw [flattenTabs, preorderForest]
  | .mk dt tp children :: rest => by
    rw [flattenTabs, preorderForest, preorderTab,
      flattenTabs_eq_preorderForest children, flattenTabs_eq_preorderForest rest]
    simp

/-- C8: flattening is the pre-order depth-first traversal — each tab is
followed immediately by the flattening of its children, before the next
sibling's subtree; an empty tree flattens to the empty sequence, which the
orchestrator's conversion phase turns into the fatal "document has no tabs"
error before converting anything. -/
theorem C8_flatten_preorder :
    (∀ tabs : List Tab, flattenTabs tabs = preorderForest tabs) ∧
    (∀ (dt : Option DocumentTab) (tp : Option TabProperties)
        (children rest : List Tab),
      flattenTabs (Tab.mk dt tp children :: rest) =
        Tab.mk dt tp children :: (flattenTabs children ++ flattenTabs rest)) ∧
    flattenTabs [] = [] ∧
    exportConvert [] = Except.error "document has no tabs" :=
  ⟨flattenTabs_eq_preorderForest,
   fun dt tp children rest => by rw [flattenTabs],
   by rw [flattenTabs],
   by
     rw [exportConvert, show flattenTabs [] = [] from by rw [flattenTabs]]
     rfl⟩

/-! ## The list-state tracker (C2) -/

/-- Spec: the List State Tracker transition evaluated on every list-item
paragraph: a differing incoming list identifier resets all counters and the
nesting to the new list's initial state; an incoming nesting level strictly
shallower than the tracked one discards the counters of every strictly deeper
level while retaining the shallower ones; then the tracked level becomes the
incoming level and the counter at that level is incremented (a discarded or
fresh counter starts over at 1). -/
def listTrackerSpecStep (st : ListTracker) (listId : String) (lvl : Nat) : ListTracker :=
  let active := if listId ≠ st.listID then
      { listID := listId, nestingLevel := 0, itemCounts := fun _ => 0 }
    else st
  let retained : Nat → Nat := fun k =>
    if lvl < active.nestingLevel ∧ lvl < k then 0 else active.itemCounts k
  { listID := listId, nestingLevel := lvl,
    itemCounts := fun k => if k = lvl then retained lvl + 1 else retained k }

theorem listStateStep_eq_spec (st : ListTracker) (listId : String) (lvl : Nat) :
    listStateStep st listId lvl = listTrackerSpecStep st listId lvl := by
  unfold listStateStep listTrackerSpecStep
  by_cases hid : st.listID = listId
  · by_cases hlt : lvl < st.nestingLevel
    · simp only [hid, ne_eq, not_true_eq_false, ite_false, if_false, hlt, if_true,
        ite_true, true_and]
    · simp [hid, hlt]
  · have hid2 : listId ≠ st.listID := fun h => hid h.symm
    simp [hid, hid2]

theorem handleListItem_listState (c : Converter) (p : Paragraph) (b : Bullet)
    (hl : Nat) (hb : p.bullet = some b) :
    (handleListItem c p hl).listState =
      listStateStep c.listState b.listId b.nestingLevel := by
  unfold handleListItem
  rw [hb]
  dsimp only
  have hframe := renderParagraphElements_frame p.elements
    { c with listState := listStateStep c.listState b.listId b.nestingLevel }
  split
  · exact hframe.2.2.2
  · exact hframe.2.2.2

/-- The ordered list definition of the worked example: one list id, two
nesting levels, both with the ordered DECIMAL glyph. -/
def orderedListDef : ListDef :=
  { listProperties := some
      { nestingLevels := [{ glyphType := "DECIMAL" }, { glyphType := "DECIMAL" }] } }

/-- A list-item paragraph of the worked example at the given nesting level. -/
def listItemPara (lvl : Nat) : StructuralElement :=
  .paragraph
    { paragraphStyle := none,
      bullet := some { nestingLevel := lvl, listId := "L" },
      elements := [.textRun { content := "a\n", textStyle := none }] }

/-- The worked example's tab: five items at nesting levels 0, 0, 1, 1, 0, all
sharing one ordered list. -/
def listExampleTab : Tab :=
  .mk (some
    { body := some { content :=
        [listItemPara 0, listItemPara 0, listItemPara 1, listItemPara 1, listItemPara 0] },
      lists := some [("L", orderedListDef)],
      inlineObjects := none })
    (some { title := "T" }) []

/-- C2: the List State Tracker obeys the claimed transition rules (reset on a
new list id; discard strictly deeper counters on a shallower item; set the
level and increment its counter), and on the worked example — nesting levels
0, 0, 1, 1, 0 in one ordered list — the items get the ordered labels
1., 2., 1., 2., 3. . -/
theorem C2_list_tracker_transitions :
    (∀ (st : ListTracker) (listId : String) (lvl : Nat),
      listStateStep st listId lvl = listTrackerSpecStep st listId lvl) ∧
    (∀ (c : Converter) (p : Paragraph) (b : Bullet) (hl : Nat), p.bullet = some b →
      (handleListItem c p hl).listState =
        listStateStep c.listState b.listId b.nestingLevel) ∧
    (ConvertTab listExampleTab "T" 0).markdown =
      "# T\n\n1. a\n2. a\n  1. a\n  2. a\n3. a\n" :=
  ⟨listStateStep_eq_spec,
   fun c p b hl hb => handleListItem_listState c p b hl hb,
   by decide⟩

/-! ## Style rendering (C4, C5, C9) -/

theorem monospace_render (tr : TextRun) (s : TextStyle) (hs : tr.textStyle = some s)
    (hm : isMonospace s = true) (ht : trimSpace tr.content ≠ "") :
    renderTextRun tr = "`" ++ trimSpace tr.content ++ "`" := by
  unfold renderTextRun
  by_cases hnl : tr.content = "\n"
  · rw [hnl] at ht
    exact absurd (by decide : trimSpace "\n" = "") ht
  · rw [if_neg hnl, hs]
    dsimp only
    rw [if_pos]
    rw [hm]
    simp [ht]

/-- The monospace-precedence example: bold with font family "Consolas". -/
def consolasBoldRun : TextRun :=
  { content := "x",
    textStyle := some
      { bold := true, italic := false, strikethrough := false,
        weightedFontFamily := some { fontFamily := "Consolas" }, link := none } }

/-- C4: a run resolved as monospace with non-blank trimmed content renders as
exactly its trimmed content wrapped in backticks — no bold, italic,
strikethrough or link markers are applied, whatever the style flags say (the
output is fully determined, so no marker can appear); in particular the bold
Consolas run "x" renders as the inline code span of "x". -/
theorem C4_monospace_precedence :
    (∀ (tr : TextRun) (s : TextStyle), tr.textStyle = some s →
      isMonospace s = true → trimSpace tr.content ≠ "" →
      renderTextRun tr = "`" ++ trimSpace tr.content ++ "`") ∧
    renderTextRun consolasBoldRun = "`x`" :=
  ⟨monospace_render, by decide⟩

/-- C9: on the monospace path a trailing newline of the run's content is
dropped — the rendered output is the backtick-wrapped trimmed content and
ends in a backtick, not in a re-appended newline. -/
theorem C9_monospace_drops_trailing_newline (tr : TextRun) (s : TextStyle)
    (hs : tr.textStyle = some s) (hm : isMonospace s = true)
    (hnl : endsWithNewline tr.content = true) (ht : trimSpace tr.content ≠ "") :
    renderTextRun tr = "`" ++ trimSpace tr.content ++ "`" ∧
    (renderTextRun tr).data.getLast? = some '`' := by
  have h1 := monospace_render tr s hs hm ht
  refine ⟨h1, ?_⟩
  rw [h1, String.data_append, show "`".data = ['`'] from by decide,
    List.getLast?_concat]

/-- A concrete monospace run whose content carries a trailing newline. -/
def menloNewlineRun : TextRun :=
  { content := "code\n",
    textStyle := some
      { bold := false, italic := false, strikethrough := false,
        weightedFontFamily := some { fontFamily := "Menlo" }, link := none } }

theorem C9_monospace_drops_trailing_newline_witness :
    renderTextRun menloNewlineRun = "`" ++ trimSpace menloNewlineRun.content ++ "`" ∧
    (renderTextRun menloNewlineRun).data.getLast? = some '`' :=
  C9_monospace_drops_trailing_newline menloNewlineRun
    { bold := false, italic := false, strikethrough := false,
      weightedFontFamily := some { fontFamily := "Menlo" }, link := none }
    rfl (by decide) (by decide) (by decide)

/-- Spec: the non-monospace composition pipeline in the claimed fixed order —
detach a trailing newline, apply bold/italic innermost (triple emphasis when
both), strikethrough around them, a hyperlink wrap (only for a non-empty URL)
as the outermost transform, and re-append the detached newline last. -/
def specStyleCompose (content : String) (style : TextStyle) : String :=
  let trailing := endsWithNewline content
  let body := trimRightNewlines content
  if body = "" then (if trailing then "\n" else "")
  else
    let emphasized :=
      if style.bold && style.italic then "***" ++ body ++ "***"
      else if style.bold then "**" ++ body ++ "**"
      else if style.italic then "*" ++ body ++ "*"
      else body
    let struck := if style.strikethrough then "~~" ++ emphasized ++ "~~" else emphasized
    let linked :=
      match style.link with
      | some l => if l.url ≠ "" then "[" ++ struck ++ "](" ++ l.url ++ ")" else struck
      | none => struck
    linked ++ (if trailing then "\n" else "")

theorem renderTextRun_eq_specCompose (tr : TextRun) (s : TextStyle)
    (hs : tr.textStyle = some s) (hm : isMonospace s = false) :
    renderTextRun tr = specStyleCompose tr.content s := by
  unfold renderTextRun specStyleCompose
  rw [hs]
  by_cases hnl : tr.content = "\n"
  · rw [if_pos hnl, hnl]
    rw [show endsWithNewline "\n" = true from by decide,
      show trimRightNewlines "\n" = "" from by decide]
    simp
  · rw [if_neg hnl]
    dsimp only
    rw [hm]
    rw [show (false && decide (trimSpace tr.content ≠ "")) = false from by simp]
    rw [if_neg (by simp : ¬ (false = true))]
    by_cases hb : trimRightNewlines tr.content = ""
    · simp only [hb, if_true, ite_true]
    · simp only [hb, if_false, ite_false]
      cases htr : endsWithNewline tr.content with
      | true => simp
      | false => simp [String.append_empty]

/-- The composition example: bold, struck-through, linked "hi". -/
def styledLinkedRun : TextRun :=
  { content := "hi",
    textStyle := some
      { bold := true, italic := false, strikethrough := true,
        weightedFontFamily := none, link := some { url := "https://x" } } }

/-- C5: a non-monospace run's markers compose in the fixed order bold/italic
innermost, then strikethrough, then a hyperlink wrap (only for a non-empty
URL) outermost, with the detached trailing newline re-appended last (the
pipeline `specStyleCompose`); in particular the bold struck linked run "hi"
renders as the linked struck bold span. -/
theorem C5_style_composition_order :
    (∀ (tr : TextRun) (s : TextStyle), tr.textStyle = some s →
      isMonospace s = false → renderTextRun tr = specStyleCompose tr.content s) ∧
    renderTextRun styledLinkedRun = "[~~**hi**~~](https://x)" :=
  ⟨renderTextRun_eq_specCompose, by decide⟩

/-! ## Heading paragraphs (C3) -/

/-- A converter in its initial per-tab state over an empty tab, for the
concrete examples. -/
def emptyConverter : Converter :=
  { tab := .mk none none [], tabIndex := 0, buf := "", images := [],
    imageCount := 0, listState := emptyTracker }

/-- C3 (amended): a paragraph that carries a named heading style, carries no
bullet, and whose rendered text is non-blank after trimming is emitted as an
ATX heading of the mapped level — the '#' repetitions, a space, the trimmed
rendered text — followed by a blank line. -/
theorem C3_heading_paragraphs (c : Converter) (p : Paragraph)
    (hb : p.bullet = none)
    (hL : 0 < headingLevelFromStyle (paraNamedStyle p))
    (ht : trimSpace (renderParagraphElements c p.elements).1 ≠ "") :
    (convertParagraph c p).buf =
      c.buf ++ strRepeat "#" (headingLevelFromStyle (paraNamedStyle p)) ++ " " ++
        trimSpace (renderParagraphElements c p.elements).1 ++ "\n\n" := by
  unfold convertParagraph
  rw [hb]
  dsimp only
  rw [renderParagraphElements_listState_indep p.elements c emptyTracker]
  dsimp only
  rw [if_neg ht, if_pos hL]
  unfold writeHeading
  have hframe := renderParagraphElements_frame p.elements c
  rw [show ({ (renderParagraphElements c p.elements).2 with
      listState := emptyTracker } : Converter).buf =
      (renderParagraphElements c p.elements).2.buf from rfl, hframe.2.2.1]

/-- A heading-styled paragraph rendering "hi", with no bullet. -/
def headingPara : Paragraph :=
  { paragraphStyle := some { namedStyleType := "HEADING_2" },
    bullet := none,
    elements := [.textRun { content := "hi", textStyle := none }] }

theorem C3_heading_paragraphs_witness :
    (convertParagraph emptyConverter headingPara).buf =
      emptyConverter.buf ++
        strRepeat "#" (headingLevelFromStyle (paraNamedStyle headingPara)) ++ " " ++
        trimSpace (renderParagraphElements emptyConverter headingPara.elements).1 ++
        "\n\n" :=
  C3_heading_paragraphs emptyConverter headingPara rfl (by decide) (by decide)

/-- A paragraph that carries the HEADING_1 style and also a bullet. -/
def headingBulletPara : Paragraph :=
  { paragraphStyle := some { namedStyleType := "HEADING_1" },
    bullet := some { nestingLevel := 0, listId := "" },
    elements := [.textRun { content := "hi", textStyle := none }] }

/-- C3 counterexample: a paragraph carrying the named heading style HEADING_1
(mapped level 1) but also a bullet is emitted as a list item, not as an ATX
heading with a trailing blank line. -/
theorem C3_heading_paragraphs_counterexample :
    headingLevelFromStyle (paraNamedStyle headingBulletPara) = 1 ∧
    (convertParagraph emptyConverter headingBulletPara).buf = "- hi\n" ∧
    "- hi\n" ≠ "# hi\n\n" :=
  ⟨by decide, by decide, by decide⟩

/-! ## Table rendering (C6, C10) -/

/-- Concatenation of a list of strings (used to describe the emitted table
lines). -/
def joinAll : List String → String
  | [] => ""
  | x :: xs => x ++ joinAll xs

/-- Spec: the Markdown of a table whose cell-text matrix has header row `hdr`
and data rows `rest`: the header line, a separator line of one "---" cell per
header column, then each data row right-padded with empty cells up to the
header's column count, and a closing blank line. -/
def tableMarkdownSpec (hdr : List String) (rest : List (List String)) : String :=
  "| " ++ goJoin hdr " | " ++ " |\n" ++
    ("| " ++ goJoin (List.replicate hdr.length "---") " | " ++ " |\n" ++
      (joinAll (rest.map (fun row =>
        "| " ++ goJoin (row ++ List.replicate (hdr.length - row.length) "") " | " ++
          " |\n")) ++ "\n"))

theorem renderCellParas_buf :
    ∀ (content : List StructuralElement) (c : Converter),
    (renderCellParas c content).2.buf = c.buf
  | [], c => rfl
  | .paragraph p :: rest, c => by
    simp only [renderCellParas]
    rw [renderCellParas_buf rest _]
    exact (renderParagraphElements_frame p.elements c).2.2.1
  | .table t :: rest, c => renderCellParas_buf rest c
  | .sectionBreak :: rest, c => renderCellParas_buf rest c
  | .tableOfContents :: rest, c => renderCellParas_buf rest c

theorem renderRowCells_buf :
    ∀ (row : List (List StructuralElement)) (c : Converter),
    (renderRowCells c row).2.buf = c.buf
  | [], c => rfl
  | cell :: rest, c => by
    simp only [renderRowCells]
    rw [renderRowCells_buf rest _]
    exact renderCellParas_buf cell c

theorem renderTableRows_buf :
    ∀ (trows : List (List (List StructuralElement))) (c : Converter),
    (renderTableRows c trows).2.buf = c.buf
  | [], c => rfl
  | row :: rest, c => by
    simp only [renderTableRows]
    rw [renderTableRows_buf rest _]
    exact renderRowCells_buf row c

theorem emitTableLines_buf :
    ∀ (rows : List (List String)) (c : Converter) (n : Nat),
    (emitTableLines c n rows).buf =
      c.buf ++ joinAll (rows.map (fun row =>
        "| " ++ goJoin (row ++ List.replicate (n - row.length) "") " | " ++ " |\n"))
  | [], c, n => by simp [emitTableLines, joinAll, String.append_empty]
  | row :: rest, c, n => by
    simp only [emitTableLines, List.map_cons, joinAll]
    rw [emitTableLines_buf rest _ n]
    simp [String.append_assoc]

theorem convertTable_buf (c : Converter) (t0 : List (List StructuralElement))
    (ts : List (List (List StructuralElement))) :
    (convertTable c (t0 :: ts)).buf =
      c.buf ++ tableMarkdownSpec (renderRowCells c t0).1
        ((renderTableRows (renderRowCells c t0).2 ts).1) := by
  unfold convertTable
  simp only [renderTableRows]
  rw [emitTableLines_buf]
  have hbuf : (renderTableRows (renderRowCells c t0).2 ts).2.buf = c.buf := by
    rw [renderTableRows_buf, renderRowCells_buf]
  rw [hbuf]
  unfold tableMarkdownSpec
  apply String.ext
  simp [String.data_append, List.append_assoc]

/-- One escaped character of a table cell: the pipe-escaping and
newline-collapsing of `convertTable`, fused into a single character map. -/
def escapeChar (ch : Char) : List Char :=
  if ch = '|' then ['\\', '|'] else if ch = '\n' then [' '] else [ch]

theorem renderCellText_data (c : Converter) (content : List StructuralElement) :
    (renderCellText c content).1.data =
      ((renderCellParas c content).1.data).flatMap escapeChar := by
  show (((renderCellParas c content).1.data.flatMap
      (fun ch => if ch = '|' then "\\|".data else [ch])).flatMap
      (fun ch => if ch = '\n' then " ".data else [ch])) = _
  rw [List.bind_assoc]
  congr 1
  funext ch
  by_cases h1 : ch = '|'
  · simp [h1, escapeChar]
  · by_cases h2 : ch = '\n'
    · simp [h1, h2, escapeChar]
    · simp [h1, h2, escapeChar]

theorem newline_not_mem_escape (l : List Char) : '\n' ∉ l.flatMap escapeChar := by
  induction l with
  | nil => simp
  | cons ch rest ih =>
    simp only [List.flatMap_cons, List.mem_append]
    rintro (h | h)
    · unfold escapeChar at h
      by_cases h1 : ch = '|'
      · simp [h1] at h
      · by_cases h2 : ch = '\n'
        · simp [h1, h2] at h
        · simp [h1, h2] at h
          exact h2 h.symm
    · exact ih h

/-- Scan for a raw pipe: `false` as soon as a '|' appears that is not
immediately preceded by a backslash. -/
def pipesEscapedOK : List Char → Bool
  | [] => true
  | [c] => if c = '|' then false else true
  | c :: c2 :: rest =>
    if c = '|' then false
    else if c = '\\' ∧ c2 = '|' then pipesEscapedOK rest
    else pipesEscapedOK (c2 :: rest)

theorem escape_head_not_pipe (l : List Char) (c2 : Char) (T2 : List Char)
    (h : l.flatMap escapeChar = c2 :: T2) : c2 ≠ '|' := by
  induction l with
  | nil => simp at h
  | cons ch rest ih =>
    simp only [List.flatMap_cons] at h
    unfold escapeChar at h
    by_cases h1 : ch = '|'
    · simp [h1] at h
      intro hc
      rw [hc] at h
      exact absurd h.1.symm (by decide)
    · by_cases h2 : ch = '\n'
      · simp [h1, h2] at h
        intro hc
        rw [hc] at h
        exact absurd h.1.symm (by decide)
      · simp [h1, h2] at h
        intro hc
        exact h1 (h.1.trans hc)

theorem pipesEscapedOK_escape (l : List Char) :
    pipesEscapedOK (l.flatMap escapeChar) = true := by
  induction l with
  | nil => rfl
  | cons ch rest ih =>
    simp only [List.flatMap_cons]
    by_cases h1 : ch = '|'
    · simp only [escapeChar, h1, if_true, ite_true, List.cons_append, List.nil_append]
      simp only [pipesEscapedOK]
      simp [ih]
    · by_cases h2 : ch = '\n'
      · simp only [escapeChar, h1, h2, if_false, ite_false, if_true, ite_true,
          List.cons_append, List.nil_append]
        rcases hT : rest.flatMap escapeChar with _ | ⟨c2, T2⟩
        · simp [pipesEscapedOK]
        · rw [hT] at ih
          simp [pipesEscapedOK, ih]
      · simp only [escapeChar, h1, h2, if_false, ite_false, List.cons_append,
          List.nil_append]
        rcases hT : rest.flatMap escapeChar with _ | ⟨c2, T2⟩
        · simp [pipesEscapedOK, h1]
        · have hc2 := escape_head_not_pipe rest c2 T2 hT
          rw [hT] at ih
          simp [pipesEscapedOK, h1, hc2, ih]

/-- C6: the Table Renderer treats the first cell-text row as the header,
emits one "---" separator cell per header column right after it, right-pads
every shorter data row with empty cells to the header's width (the emitted
Markdown is exactly `tableMarkdownSpec`); a zero-row table produces no output
at all; and every cell text has its newlines collapsed away and every
remaining pipe escaped, so no cell can break the table grammar. -/
theorem C6_table_rendering :
    (∀ c : Converter, convertTable c [] = c) ∧
    (∀ (c : Converter) (t0 : List (List StructuralElement))
        (ts : List (List (List StructuralElement))),
      (convertTable c (t0 :: ts)).buf =
        c.buf ++ tableMarkdownSpec (renderRowCells c t0).1
          ((renderTableRows (renderRowCells c t0).2 ts).1)) ∧
    (∀ (c : Converter) (content : List StructuralElement),
      '\n' ∉ (renderCellText c content).1.data ∧
      pipesEscapedOK (renderCellText c content).1.data = true) :=
  ⟨fun c => rfl, convertTable_buf, fun c content => by
    rw [renderCellText_data]
    exact ⟨newline_not_mem_escape _, pipesEscapedOK_escape _⟩⟩

/-- A one-paragraph table cell containing the given text. -/
def cellOf (s : String) : List StructuralElement :=
  [.paragraph { paragraphStyle := none, bullet := none, elements := [.textRun { content := s, textStyle := none }] }]

/-- A table whose header row has one cell and whose data row has two. -/
def wideRowTable : List (List (List StructuralElement)) :=
  [[cellOf "h"], [cellOf "a", cellOf "b"]]

/-- C10: data rows are padded up to the header's column count but never
truncated — a row at least as wide as the header is emitted with all its
cells unchanged — so a table with header width 1 and a 2-cell data row emits
a 2-column data line under a 1-column header and separator. -/
theorem C10_long_rows_not_truncated :
    (∀ (row : List String) (n : Nat), n ≤ row.length →
      row ++ List.replicate (n - row.length) "" = row) ∧
    (∀ (hdr : List String) (rest : List (List String)),
      (∀ row ∈ rest, hdr.length ≤ row.length) →
      tableMarkdownSpec hdr rest =
        "| " ++ goJoin hdr " | " ++ " |\n" ++
          ("| " ++ goJoin (List.replicate hdr.length "---") " | " ++ " |\n" ++
            (joinAll (rest.map (fun row => "| " ++ goJoin row " | " ++ " |\n")) ++
              "\n"))) ∧
    (convertTable emptyConverter wideRowTable).buf =
      "| h |\n| --- |\n| a | b |\n\n" := by
  refine ⟨?_, ?_, by decide⟩
  · intro row n hn
    have h0 : n - row.length = 0 := by omega
    simp [h0]
  · intro hdr rest hwide
    unfold tableMarkdownSpec
    have hmap : rest.map (fun row =>
        "| " ++ goJoin (row ++ List.replicate (hdr.length - row.length) "") " | " ++
          " |\n") =
        rest.map (fun row => "| " ++ goJoin row " | " ++ " |\n") := by
      apply List.map_congr_left
      intro row hrow
      have h0 : hdr.length - row.length = 0 := by
        have := hwide row hrow
        omega
      simp [h0]
    rw [hmap]

/-! ## Degradation on malformed references (C7) -/

/-- The resolution chain of `renderInlineObject`: tab → inline-object map →
object → properties → embedded object → image properties.  `none` when any
link of the chain is missing. -/
def resolveImageProps (tab : Tab) (objectId : String) : Option ImageProperties :=
  match tab.documentTab with
  | none => none
  | some dt =>
    match dt.inlineObjects with
    | none => none
    | some objs =>
      match lookupAssoc objs objectId with
      | none => none
      | some obj =>
        match obj.inlineObjectProperties with
        | none => none
        | some props =>
          match props.embeddedObject with
          | none => none
          | some embedded => embedded.imageProperties

/-- The list-definition lookup of `handleListItem`: tab → list map → list. -/
def resolveListDef (tab : Tab) (listId : String) : Option ListDef :=
  match tab.documentTab with
  | none => none
  | some dt =>
    match dt.lists with
    | none => none
    | some lists => lookupAssoc lists listId

theorem renderInlineObject_skip (c : Converter) (e : InlineObjectElement)
    (h : ∀ ip, resolveImageProps c.tab e.inlineObjectId = some ip →
      ip.contentUri = "") :
    renderInlineObject c e = ("", c) := by
  unfold renderInlineObject
  cases hdt : c.tab.documentTab with
  | none => rfl
  | some dt =>
    dsimp only
    cases hobjs : dt.inlineObjects with
    | none => rfl
    | some objs =>
      dsimp only
      cases hobj : lookupAssoc objs e.inlineObjectId with
      | none => rfl
      | some obj =>
        dsimp only
        cases hprops : obj.inlineObjectProperties with
        | none => rfl
        | some props =>
          dsimp only
          cases hemb : props.embeddedObject with
          | none => rfl
          | some emb =>
            dsimp only
            cases hip : emb.imageProperties with
            | none => rfl
            | some ip =>
              dsimp only
              have huri : ip.contentUri = "" := h ip (by
                simp [resolveImageProps, hdt, hobjs, hobj, hprops, hemb, hip])
              rw [if_pos huri]

theorem listOrdered_false (tab : Tab) (listId : String) (lvl : Nat)
    (h : listId = "" ∨ resolveListDef tab listId = none) :
    listOrdered tab listId lvl = false := by
  unfold listOrdered
  rcases h with h | h
  · simp [h]
  · unfold resolveListDef at h
    by_cases hid : listId = ""
    · simp [hid]
    · rw [if_pos hid]
      cases hdt : tab.documentTab with
      | none => rfl
      | some dt =>
        rw [hdt] at h
        dsimp only at h
        dsimp only
        cases hlists : dt.lists with
        | none => rfl
        | some lists =>
          rw [hlists] at h
          dsimp only at h
          dsimp only
          cases hlook : lookupAssoc lists listId with
          | none => rfl
          | some ld =>
            rw [hlook] at h
            exact absurd h (by simp)

theorem handleListItem_unordered (c : Converter) (p : Paragraph) (b : Bullet)
    (hl : Nat) (hb : p.bullet = some b)
    (h : b.listId = "" ∨ resolveListDef c.tab b.listId = none) :
    (handleListItem c p hl).buf =
      c.buf ++ strRepeat "  " b.nestingLevel ++ "- " ++
        trimSpace (renderParagraphElements c p.elements).1 ++ "\n" := by
  unfold handleListItem
  rw [hb]
  dsimp only
  rw [listOrdered_false c.tab b.listId b.nestingLevel h]
  rw [renderParagraphElements_listState_indep p.elements c
    (listStateStep c.listState b.listId b.nestingLevel)]
  dsimp only
  rw [if_neg (by simp : ¬ (false = true))]
  rw [show ({ (renderParagraphElements c p.elements).2 with
      listState := listStateStep c.listState b.listId b.nestingLevel } : Converter).buf =
      (renderParagraphElements c p.elements).2.buf from rfl]
  rw [(renderParagraphElements_frame p.elements c).2.2.1]

/-- C7: conversion is total; an inline image whose reference does not resolve
(or whose embedded image has no content URI) renders as empty output with the
converter unchanged — no ImageRequest appended, no counter increment — and a
list item whose list id is empty or whose list definition is missing is
emitted as an unordered item rather than failing. -/
theorem C7_malformed_references_degrade :
    (∀ (c : Converter) (e : InlineObjectElement),
      (∀ ip, resolveImageProps c.tab e.inlineObjectId = some ip →
        ip.contentUri = "") →
      renderInlineObject c e = ("", c)) ∧
    (∀ (c : Converter) (p : Paragraph) (b : Bullet) (hl : Nat), p.bullet = some b →
      (b.listId = "" ∨ resolveListDef c.tab b.listId = none) →
      (handleListItem c p hl).buf =
        c.buf ++ strRepeat "  " b.nestingLevel ++ "- " ++
          trimSpace (renderParagraphElements c p.elements).1 ++ "\n") :=
  ⟨renderInlineObject_skip, handleListItem_unordered⟩
